import Mathlib

/-!
A shallow embedding of `masterblog-api/backend/backend_app.py`, a small Flask
blog API: an in-memory list of posts with list (optionally sorted), create,
update, delete and search handlers.  Each handler below is transcribed from
the corresponding Python function; handlers are pure functions from the store
(and the request data) to a response, paired with the store that results.
JSON response bodies are modelled by the `Body` type; Python strings compare
by code point, which matches Lean's `String` order, and `str.lower` is
modelled by `strLower` (character-wise `Char.toLower`).  A Python request
that raises an uncaught exception is modelled as `none`.
-/

set_option maxHeartbeats 1000000

namespace Masterblog

/-- A blog post record: the dict `{"id": ..., "title": ..., "content": ...}`. -/
structure Post where
  id : Nat
  title : String
  content : String
deriving DecidableEq, Repr

/-- A JSON response body: a list of posts, a single post, a
`{"message": ...}` object or an `{"error": ...}` object. -/
inductive Body where
  | posts (l : List Post)
  | post (p : Post)
  | msg (s : String)
  | err (s : String)
deriving DecidableEq, Repr

/-- A response: HTTP status code and JSON body. -/
abbrev Resp := Nat × Body

/-- The seed store `POSTS` from the source. -/
def POSTS : List Post :=
  [{ id := 1, title := "First post", content := "This is the first post." },
   { id := 2, title := "Second post", content := "This is the second post." }]

/-- `max(post["id"] for post in POSTS)`: the ids are naturals, so folding
`Nat.max` from `0` computes the maximum of a nonempty list of ids. -/
def maxIds (posts : List Post) : Nat :=
  (posts.map Post.id).foldl Nat.max 0

/-- `generate_new_id()` from the source (defined there but never called by
any handler): `max(ids) + 1` if the store is nonempty, else `1`. -/
def generate_new_id (posts : List Post) : Nat :=
  if posts.isEmpty then 1 else maxIds posts + 1

/-- Python truthiness of `request.args.get(...)`: `None` and `""` are falsy,
every other string is truthy. -/
def truthy : Option String → Bool
  | none => false
  | some s => s != ""

/-- `str.lower()`: lowercase each character.  Equal to `String.toLower`, but
defined by structural recursion on the character list so that it evaluates. -/
def strLower (s : String) : String :=
  ⟨s.data.map Char.toLower⟩

/-- `post.get(sort_field, '').lower()`: the sort key for one post. -/
def postKey (field : String) (p : Post) : String :=
  strLower (if field = "title" then p.title else if field = "content" then p.content else "")

/-- The Boolean comparison `list.sort(key=..., reverse=rev)` sorts by:
ascending key order, or descending when `rev`.  Python's sort is stable and
`reverse=True` keeps tied elements in their original order, which is exactly
a stable sort by the flipped comparison. -/
def postLe (field : String) (rev : Bool) (p q : Post) : Bool :=
  if rev then decide (postKey field q ≤ postKey field p)
  else decide (postKey field p ≤ postKey field q)

/-- `get_posts()`: GET `/api/posts` with optional `sort` and `direction`
query parameters (`none` models an absent parameter). -/
def get_posts (posts : List Post) (sortQ dirQ : Option String) : Resp :=
  let sort_field := sortQ.getD ""
  let sort_direction := strLower (dirQ.getD "asc")
  if truthy sortQ && !(sort_field == "title" || sort_field == "content") then
    (400, Body.err ("Invalid sort field: " ++ sort_field ++
      ". Valid options are 'title' or 'content'."))
  else if !(sort_direction == "asc" || sort_direction == "desc") then
    (400, Body.err ("Invalid sort direction: " ++ sort_direction ++
      ". Valid options are 'asc' or 'desc'."))
  else
    let sorted_posts :=
      if truthy sortQ then
        posts.mergeSort (postLe sort_field (sort_direction == "desc"))
      else posts
    (200, Body.posts sorted_posts)

/-- The GET branch of `handle_posts()`: a verbatim duplicate of the logic of
`get_posts()` in the source, transcribed separately from its own code block. -/
def handle_posts_get (posts : List Post) (sortQ dirQ : Option String) : Resp :=
  let sort_field := sortQ.getD ""
  let sort_direction := strLower (dirQ.getD "asc")
  if truthy sortQ && !(sort_field == "title" || sort_field == "content") then
    (400, Body.err ("Invalid sort field: " ++ sort_field ++
      ". Valid options are 'title' or 'content'."))
  else if !(sort_direction == "asc" || sort_direction == "desc") then
    (400, Body.err ("Invalid sort direction: " ++ sort_direction ++
      ". Valid options are 'asc' or 'desc'."))
  else
    let sorted_posts :=
      if truthy sortQ then
        posts.mergeSort (postLe sort_field (sort_direction == "desc"))
      else posts
    (200, Body.posts sorted_posts)

/-- The JSON payload of a POST request: optional `title` and `content` keys,
and an optional client-supplied `id` key. -/
structure CreatePayload where
  title : Option String
  content : Option String
  idField : Option Nat
deriving DecidableEq, Repr

/-- The POST branch of `handle_posts()`.  It computes
`max(post['id'] for post in POSTS) + 1` inline (it does not call
`generate_new_id`), so on an empty store `max()` raises `ValueError` and the
request crashes: modelled as `none`.  The line `new_post['id'] = new_id`
overwrites any client-supplied `id`, so the stored post's id is `new_id`
regardless of `payload.idField`. -/
def handle_posts_post (posts : List Post) (payload : CreatePayload) :
    Option (Resp × List Post) :=
  if payload.title.isNone || payload.content.isNone then
    some ((400, Body.err "Both title and content are required."), posts)
  else if posts.isEmpty then
    none
  else
    let new_id := maxIds posts + 1
    let new_post : Post :=
      { id := new_id, title := payload.title.getD "", content := payload.content.getD "" }
    some ((201, Body.post new_post), posts ++ [new_post])

/-- `delete_post(id)`.  Python finds the first post whose `id` matches and
calls `POSTS.remove(post_to_delete)`, which removes the first list element
equal to it; since every earlier element has a different `id`, that element
is the found one, i.e. `List.eraseP` on the id test. -/
def delete_post (posts : List Post) (i : Nat) : Resp × List Post :=
  match posts.find? (fun p => p.id == i) with
  | none => ((404, Body.err ("Post with id " ++ toString i ++ " not found.")), posts)
  | some _ =>
      ((200, Body.msg ("Post with id " ++ toString i ++ " has been deleted successfully.")),
       posts.eraseP (fun p => p.id == i))

/-- `new_data.get("title", post["title"])` / same for content: replace each
field by the supplied value when present, else keep the prior value. -/
def applyUpdate (t c : Option String) (p : Post) : Post :=
  { p with title := t.getD p.title, content := c.getD p.content }

/-- In-place mutation of the first post whose id matches, as performed on the
dict returned by `next(...)` inside `update_post`. -/
def updateFirst (i : Nat) (t c : Option String) : List Post → List Post
  | [] => []
  | p :: ps => if p.id == i then applyUpdate t c p :: ps else p :: updateFirst i t c ps

/-- `update_post(id)`: PUT `/api/posts/<int:id>` with optional `title` and
`content` in the JSON payload. -/
def update_post (posts : List Post) (i : Nat) (t c : Option String) : Resp × List Post :=
  match posts.find? (fun p => p.id == i) with
  | none => ((404, Body.err ("Post with id " ++ toString i ++ " not found.")), posts)
  | some p => ((200, Body.post (applyUpdate t c p)), updateFirst i t c posts)

/-- Python's substring test `needle in hay` on lists of characters. -/
def subOccurs (needle : List Char) : List Char → Bool
  | [] => needle.isEmpty
  | c :: rest => needle.isPrefixOf (c :: rest) || subOccurs needle rest

/-- `needle in hay` for strings. -/
def strContains (hay needle : String) : Bool :=
  subOccurs needle.data hay.data

/-- `search_posts()`: GET `/api/posts/search` with optional `title` and
`content` query parameters.  An absent parameter defaults to `''`; an empty
query is falsy, so its condition is `True`. -/
def search_posts (posts : List Post) (titleQ contentQ : Option String) : Resp :=
  let title_query := strLower (titleQ.getD "")
  let content_query := strLower (contentQ.getD "")
  (200, Body.posts (posts.filter (fun p =>
    (if title_query != "" then strContains (strLower p.title) title_query else true) &&
    (if content_query != "" then strContains (strLower p.content) content_query else true))))

/-- One API request, abstracted to the data that reaches a handler. -/
inductive Op where
  | listOp (sortQ dirQ : Option String)
  | createOp (payload : CreatePayload)
  | updateOp (i : Nat) (t c : Option String)
  | deleteOp (i : Nat)
  | searchOp (titleQ contentQ : Option String)

/-- The store after one request.  A crashed create (`ValueError` inside
`max()`) raises before `POSTS.append`, so it leaves the store unchanged. -/
def execOp (posts : List Post) : Op → List Post
  | .listOp _ _ => posts
  | .createOp payload =>
      match handle_posts_post posts payload with
      | some (_, s) => s
      | none => posts
  | .updateOp i t c => (update_post posts i t c).2
  | .deleteOp i => (delete_post posts i).2
  | .searchOp _ _ => posts

/-- Payloads used in concrete traces. -/
def payloadX : CreatePayload := ⟨some "X", some "X content", none⟩

/-- Payloads used in concrete traces. -/
def payloadZ : CreatePayload := ⟨some "Z", some "Z content", none⟩

/-! ### Helper lemmas -/

theorem le_foldl_max (l : List Nat) (a : Nat) : a ≤ l.foldl Nat.max a := by
  induction l generalizing a with
  | nil => exact Nat.le_refl a
  | cons x xs ih => exact Nat.le_trans (Nat.le_max_left a x) (ih (Nat.max a x))

theorem mem_le_foldl_max {x : Nat} (l : List Nat) (a : Nat) (h : x ∈ l) :
    x ≤ l.foldl Nat.max a := by
  induction l generalizing a with
  | nil => cases h
  | cons y ys ih =>
    rcases List.mem_cons.mp h with rfl | h
    · exact Nat.le_trans (Nat.le_max_right a x) (le_foldl_max ys _)
    · exact ih _ h

theorem id_lt_maxIds_succ {posts : List Post} {p : Post} (h : p ∈ posts) :
    p.id < maxIds posts + 1 :=
  Nat.lt_succ_of_le (mem_le_foldl_max _ 0 (List.mem_map_of_mem Post.id h))

theorem isPrefixOf_self_append (n t : List Char) : n.isPrefixOf (n ++ t) = true := by
  induction n with
  | nil => simp [List.isPrefixOf]
  | cons a as ih => simp [List.isPrefixOf, ih]

theorem subOccurs_nil_needle (l : List Char) : subOccurs [] l = true := by
  cases l <;> simp [subOccurs, List.isPrefixOf]

theorem subOccurs_middle (n y : List Char) : ∀ x, subOccurs n (x ++ n ++ y) = true := by
  intro x
  induction x with
  | nil =>
    cases n with
    | nil => exact subOccurs_nil_needle y
    | cons c cs =>
      simp [subOccurs, isPrefixOf_self_append (c :: cs) y]
  | cons a x ih => simpa [subOccurs] using Or.inr ih

theorem strContains_middle (a s b : String) : strContains (a ++ s ++ b) s = true := by
  have h : (a ++ s ++ b).data = a.data ++ s.data ++ b.data := by
    simp [String.data_append]
  simpa [strContains, h] using subOccurs_middle s.data b.data a.data

theorem updateFirst_map_id (i : Nat) (t c : Option String) (l : List Post) :
    (updateFirst i t c l).map Post.id = l.map Post.id := by
  induction l with
  | nil => rfl
  | cons p ps ih =>
    by_cases h : (p.id == i) = true
    · simp [updateFirst, h, applyUpdate]
    · simp [updateFirst, h, ih]

theorem updateFirst_split {i : Nat} {posts : List Post} {p : Post} (t c : Option String)
    (h : posts.find? (fun q => q.id == i) = some p) :
    ∃ l₁ l₂, posts = l₁ ++ p :: l₂ ∧
      updateFirst i t c posts = l₁ ++ applyUpdate t c p :: l₂ := by
  induction posts with
  | nil => simp at h
  | cons q qs ih =>
    by_cases hq : (q.id == i) = true
    · rw [List.find?_cons_of_pos (p := fun r => r.id == i) qs hq] at h
      obtain rfl : q = p := by injection h
      exact ⟨[], qs, rfl, by simp [updateFirst, hq]⟩
    · rw [List.find?_cons_of_neg (p := fun r => r.id == i) qs hq] at h
      obtain ⟨l₁, l₂, h1, h2⟩ := ih h
      exact ⟨q :: l₁, l₂, by simp [h1], by simp [updateFirst, hq, h2]⟩

theorem eraseP_id_eq_filter {i : Nat} {l : List Post} (hnd : (l.map Post.id).Nodup) :
    l.eraseP (fun p => p.id == i) = l.filter (fun p => !(p.id == i)) := by
  induction l with
  | nil => rfl
  | cons p ps ih =>
    simp only [List.map_cons, List.nodup_cons] at hnd
    by_cases hp : (p.id == i) = true
    · have hid : p.id = i := by simpa using hp
      have hall : ∀ q ∈ ps, (!(q.id == i)) = true := by
        intro q hq
        have : q.id ≠ p.id := fun e => hnd.1 (e ▸ List.mem_map_of_mem Post.id hq)
        simp [hid ▸ this]
      simp [List.eraseP_cons, hp, List.filter_cons, (List.filter_eq_self).mpr hall]
    · simp [List.eraseP_cons, hp, List.filter_cons, ih hnd.2]

theorem execOp_preserves_nodup {s : List Post} (op : Op) (h : (s.map Post.id).Nodup) :
    ((execOp s op).map Post.id).Nodup := by
  cases op with
  | listOp _ _ => exact h
  | searchOp _ _ => exact h
  | updateOp i t c =>
    cases hf : s.find? (fun p => p.id == i) with
    | none => simpa [execOp, update_post, hf] using h
    | some p => simpa [execOp, update_post, hf, updateFirst_map_id] using h
  | deleteOp i =>
    cases hf : s.find? (fun p => p.id == i) with
    | none => simpa [execOp, delete_post, hf] using h
    | some p =>
      have hsub : ((s.eraseP (fun p => p.id == i)).map Post.id).Nodup :=
        List.Nodup.sublist ((List.eraseP_sublist s).map Post.id) h
      simpa [execOp, delete_post, hf] using hsub
  | createOp payload =>
    by_cases hv : (payload.title.isNone || payload.content.isNone) = true
    · simpa [execOp, handle_posts_post, hv] using h
    · by_cases he : s.isEmpty = true
      · simpa [execOp, handle_posts_post, hv, he] using h
      · have hnew : maxIds s + 1 ∉ s.map Post.id := by
          intro hmem
          obtain ⟨p, hp, hpi⟩ := List.mem_map.mp hmem
          have := id_lt_maxIds_succ hp
          omega
        have hgoal : (s.map Post.id ++ [maxIds s + 1]).Nodup := by
          rw [List.nodup_append]
          refine ⟨h, List.nodup_singleton _, ?_⟩
          intro a ha hb
          rw [List.mem_singleton] at hb
          exact hnew (hb ▸ ha)
        simpa [execOp, handle_posts_post, hv, he] using hgoal

/-! ### Claim theorems -/

/-- C3: from the initial store, every sequence of operations preserves
pairwise-distinct ids, and no single operation changes the id of a post it
keeps: the id sequence after any operation is a sublist of the prior one
(delete, or an unchanged store) or the prior one with one new id appended
(create). -/
theorem store_ids_invariant :
    (∀ ops : List Op, ((ops.foldl execOp POSTS).map Post.id).Nodup) ∧
    (∀ (s : List Post) (op : Op),
       List.Sublist ((execOp s op).map Post.id) (s.map Post.id) ∨
       ∃ n, (execOp s op).map Post.id = s.map Post.id ++ [n]) := by
  constructor
  · have key : ∀ (ops : List Op) (s : List Post), (s.map Post.id).Nodup →
        ((ops.foldl execOp s).map Post.id).Nodup := by
      intro ops
      induction ops with
      | nil => exact fun s h => h
      | cons op ops ih => exact fun s h => ih _ (execOp_preserves_nodup op h)
    exact fun ops => key ops POSTS (by decide)
  · intro s op
    cases op with
    | listOp _ _ => exact Or.inl (List.Sublist.refl _)
    | searchOp _ _ => exact Or.inl (List.Sublist.refl _)
    | updateOp i t c =>
      have he : (execOp s (Op.updateOp i t c)).map Post.id = s.map Post.id := by
        cases hf : s.find? (fun p => p.id == i) with
        | none => simp [execOp, update_post, hf]
        | some p => simp [execOp, update_post, hf, updateFirst_map_id]
      refine Or.inl ?_
      rw [he]
    | deleteOp i =>
      refine Or.inl ?_
      cases hf : s.find? (fun p => p.id == i) with
      | none =>
        have he : execOp s (Op.deleteOp i) = s := by simp [execOp, delete_post, hf]
        rw [he]
      | some p =>
        have he : execOp s (Op.deleteOp i) = s.eraseP (fun p => p.id == i) := by
          simp [execOp, delete_post, hf]
        rw [he]
        exact (List.eraseP_sublist s).map Post.id
    | createOp payload =>
      by_cases hv : (payload.title.isNone || payload.content.isNone) = true
      · refine Or.inl ?_
        have he : execOp s (Op.createOp payload) = s := by
          simp [execOp, handle_posts_post, hv]
        rw [he]
      · by_cases hemp : s.isEmpty = true
        · refine Or.inl ?_
          have he : execOp s (Op.createOp payload) = s := by
            simp [execOp, handle_posts_post, hv, hemp]
          rw [he]
        · refine Or.inr ⟨maxIds s + 1, ?_⟩
          have he : execOp s (Op.createOp payload) =
              s ++ [{ id := maxIds s + 1, title := payload.title.getD "",
                      content := payload.content.getD "" }] := by
            simp [execOp, handle_posts_post, hv, hemp]
          rw [he, List.map_append]
          rfl

theorem postLe_trans (f : String) (rev : Bool) :
    ∀ a b c, postLe f rev a b = true → postLe f rev b c = true → postLe f rev a c = true := by
  intro a b c
  cases rev <;> simp only [postLe, if_true, if_false, decide_eq_true_eq, Bool.false_eq_true]
  · exact fun h1 h2 => le_trans h1 h2
  · exact fun h1 h2 => le_trans h2 h1

theorem postLe_total (f : String) (rev : Bool) :
    ∀ a b, (postLe f rev a b || postLe f rev b a) = true := by
  intro a b
  cases rev <;>
    simp only [postLe, if_true, if_false, Bool.or_eq_true, decide_eq_true_eq,
      Bool.false_eq_true] <;>
    exact le_total _ _

/-- Stability of the modelled Python sort: for every key value, the posts
carrying that key appear in the sorted output exactly as they appear in the
input (same members, same relative order).  Holds for both directions,
because Python's `reverse=True` also keeps ties in original order. -/
theorem mergeSort_filter_key (f : String) (rev : Bool) (posts : List Post) (k : String) :
    (posts.mergeSort (postLe f rev)).filter (fun p => postKey f p == k) =
      posts.filter (fun p => postKey f p == k) := by
  have hpair : (posts.filter (fun p => postKey f p == k)).Pairwise
      (fun a b => postLe f rev a b = true) := by
    apply List.pairwise_of_forall_mem_list
    intro a ha b hb
    have hka : postKey f a = k := by simpa using (List.mem_filter.mp ha).2
    have hkb : postKey f b = k := by simpa using (List.mem_filter.mp hb).2
    cases rev <;> simp [postLe, hka, hkb]
  have hsub : List.Sublist (posts.filter (fun p => postKey f p == k))
      (posts.mergeSort (postLe f rev)) :=
    List.sublist_mergeSort (postLe_trans f rev) (postLe_total f rev) hpair
      (List.filter_sublist posts)
  have hself : (posts.filter (fun p => postKey f p == k)).filter
      (fun p => postKey f p == k) = posts.filter (fun p => postKey f p == k) :=
    List.filter_eq_self.mpr (fun a ha => (List.mem_filter.mp ha).2)
  have hsub2 : List.Sublist (posts.filter (fun p => postKey f p == k))
      ((posts.mergeSort (postLe f rev)).filter (fun p => postKey f p == k)) := by
    have h := hsub.filter (fun p => postKey f p == k)
    rwa [hself] at h
  have hperm : List.Perm ((posts.mergeSort (postLe f rev)).filter (fun p => postKey f p == k))
      (posts.filter (fun p => postKey f p == k)) :=
    (List.mergeSort_perm posts (postLe f rev)).filter _
  exact (hsub2.eq_of_length hperm.length_eq.symm).symm

/-- When all keys are pairwise distinct, the descending sort is exactly the
reverse of the ascending sort. -/
theorem mergeSort_desc_eq_reverse (f : String) (posts : List Post)
    (hnd : (posts.map (postKey f)).Nodup) :
    posts.mergeSort (postLe f true) = (posts.mergeSort (postLe f false)).reverse := by
  have hasc : (posts.mergeSort (postLe f false)).Pairwise
      (fun a b => postLe f false a b = true) :=
    List.sorted_mergeSort (postLe_trans f false) (postLe_total f false) posts
  have hdesc : (posts.mergeSort (postLe f true)).Pairwise
      (fun a b => postLe f true a b = true) :=
    List.sorted_mergeSort (postLe_trans f true) (postLe_total f true) posts
  have hrev : ((posts.mergeSort (postLe f true)).reverse).Pairwise
      (fun a b => postLe f false a b = true) := by
    rw [List.pairwise_reverse]
    exact hdesc.imp (fun h => h)
  have hperm : List.Perm ((posts.mergeSort (postLe f true)).reverse)
      (posts.mergeSort (postLe f false)) :=
    (List.reverse_perm _).trans
      ((List.mergeSort_perm _ _).trans (List.mergeSort_perm posts (postLe f false)).symm)
  have hanti : ∀ a b, a ∈ (posts.mergeSort (postLe f true)).reverse →
      b ∈ posts.mergeSort (postLe f false) →
      postLe f false a b = true → postLe f false b a = true → a = b := by
    intro a b ha hb h1 h2
    have ha' : a ∈ posts := List.mem_mergeSort.mp (List.mem_reverse.mp ha)
    have hb' : b ∈ posts := List.mem_mergeSort.mp hb
    have hk : postKey f a = postKey f b :=
      le_antisymm (by simpa [postLe] using h1) (by simpa [postLe] using h2)
    exact List.inj_on_of_nodup_map hnd ha' hb' hk
  have heq : (posts.mergeSort (postLe f true)).reverse = posts.mergeSort (postLe f false) :=
    List.Perm.eq_of_sorted hanti hrev hasc hperm
  rw [← heq, List.reverse_reverse]

theorem strLower_empty : strLower "" = "" := by decide

theorem strContains_empty_needle (x : String) : strContains x "" = true := by
  have h : ("" : String).data = [] := by decide
  simp [strContains, h, subOccurs_nil_needle]

theorem search_cond_iff (q : Option String) (str : String) :
    ((if strLower (q.getD "") != "" then strContains (strLower str) (strLower (q.getD ""))
      else true) = true) ↔
    (q = none ∨ q = some "" ∨ ∃ s, q = some s ∧ strContains (strLower str) (strLower s) = true) := by
  cases q with
  | none => simp [strLower_empty]
  | some s =>
    by_cases hs : strLower s = ""
    · have hc : strContains (strLower str) (strLower s) = true := by
        rw [hs]
        exact strContains_empty_needle _
      simp only [Option.getD_some, hs, hc]
      simp [hc]
    · have hs' : s ≠ "" := fun e => hs (by rw [e]; exact strLower_empty)
      simp [hs, hs']

/-- C8: search returns, with status 200, exactly the posts satisfying the
conjunction of: title query absent or empty or a case-insensitive substring
of the title, and content query absent or empty or a case-insensitive
substring of the content; an empty query string behaves identically to an
absent one. -/
theorem search_spec (posts : List Post) (tq cq : Option String) :
    (∃ l, search_posts posts tq cq = (200, Body.posts l) ∧
       ∀ p, p ∈ l ↔ p ∈ posts ∧
         (tq = none ∨ tq = some "" ∨
           ∃ s, tq = some s ∧ strContains (strLower p.title) (strLower s) = true) ∧
         (cq = none ∨ cq = some "" ∨
           ∃ s, cq = some s ∧ strContains (strLower p.content) (strLower s) = true)) ∧
    search_posts posts (some "") cq = search_posts posts none cq ∧
    search_posts posts tq (some "") = search_posts posts tq none := by
  refine ⟨⟨_, rfl, ?_⟩, rfl, rfl⟩
  intro p
  rw [List.mem_filter]
  constructor
  · rintro ⟨hp, hcond⟩
    rw [Bool.and_eq_true] at hcond
    exact ⟨hp, (search_cond_iff tq p.title).mp hcond.1, (search_cond_iff cq p.content).mp hcond.2⟩
  · rintro ⟨hp, h1, h2⟩
    refine ⟨hp, ?_⟩
    rw [Bool.and_eq_true]
    exact ⟨(search_cond_iff tq p.title).mpr h1, (search_cond_iff cq p.content).mpr h2⟩

/-- C7 counterexample: `sort=""` is present and is neither `title` nor
`content`, yet the response is 200, not 400; and for `direction=UP` the 400
error message names the lowercased value `up`, not the value `UP` as sent. -/
theorem query_validation_cex :
    get_posts POSTS (some "") none = (200, Body.posts POSTS) ∧
    (200 : Nat) ≠ 400 ∧
    get_posts POSTS none (some "UP") =
      (400, Body.err "Invalid sort direction: up. Valid options are 'asc' or 'desc'.") ∧
    strContains "Invalid sort direction: up. Valid options are 'asc' or 'desc'." "UP" = false := by
  refine ⟨by decide, by decide, by decide, by decide⟩

/-- C7 amended: a present, non-empty `sort` value other than `title` or
`content` yields 400 naming the value and the valid options; `direction`
defaults to `asc` when absent and is compared case-insensitively; a
direction whose lowercasing is neither `asc` nor `desc` (with the sort
check passing) yields 400 naming the lowercased value and the valid
options. -/
theorem query_validation_spec (posts : List Post) (sortQ dirQ : Option String) :
    (∀ s, sortQ = some s → s ≠ "" → s ≠ "title" → s ≠ "content" →
       get_posts posts sortQ dirQ =
         (400, Body.err ("Invalid sort field: " ++ s ++
           ". Valid options are 'title' or 'content'."))) ∧
    (get_posts posts sortQ none = get_posts posts sortQ (some "asc")) ∧
    (∀ d d', strLower d = strLower d' →
       get_posts posts sortQ (some d) = get_posts posts sortQ (some d')) ∧
    (∀ d, dirQ = some d → strLower d ≠ "asc" → strLower d ≠ "desc" →
       (truthy sortQ = false ∨ sortQ = some "title" ∨ sortQ = some "content") →
       get_posts posts sortQ dirQ =
         (400, Body.err ("Invalid sort direction: " ++ strLower d ++
           ". Valid options are 'asc' or 'desc'."))) := by
  refine ⟨?_, rfl, ?_, ?_⟩
  · rintro s rfl hne ht hc
    have h1 : truthy (some s) = true := by simp [truthy, hne]
    have h2 : (s == "title" || s == "content") = false := by simp [ht, hc]
    simp [get_posts, h1, h2]
  · intro d d' h
    simp only [get_posts, Option.getD_some]
    rw [h]
  · rintro d rfl h1 h2 h3
    have hd : (strLower d == "asc" || strLower d == "desc") = false := by simp [h1, h2]
    rcases h3 with h3 | h3 | h3
    · simp [get_posts, h3, hd]
    · subst h3
      simp [get_posts, truthy, hd]
    · subst h3
      simp [get_posts, truthy, hd]

theorem query_validation_spec_witness :
    (some "bogus" = some "bogus" ∧ "bogus" ≠ "" ∧ "bogus" ≠ "title" ∧ "bogus" ≠ "content" ∧
     get_posts POSTS (some "bogus") none =
       (400, Body.err ("Invalid sort field: " ++ "bogus" ++
         ". Valid options are 'title' or 'content'."))) ∧
    (some "UP" = some "UP" ∧ strLower "UP" ≠ "asc" ∧ strLower "UP" ≠ "desc" ∧
     (truthy (some "title") = false ∨ some "title" = some "title" ∨
       some "title" = some "content") ∧
     get_posts POSTS (some "title") (some "UP") =
       (400, Body.err ("Invalid sort direction: " ++ strLower "UP" ++
         ". Valid options are 'asc' or 'desc'."))) :=
  ⟨⟨rfl, by decide, by decide, by decide,
     (query_validation_spec POSTS (some "bogus") none).1 "bogus" rfl
       (by decide) (by decide) (by decide)⟩,
   ⟨rfl, by decide, by decide, Or.inr (Or.inl rfl),
     (query_validation_spec POSTS (some "title") (some "UP")).2.2.2 "UP" rfl
       (by decide) (by decide) (Or.inr (Or.inl rfl))⟩⟩

/-- C1: a valid create is supposed to assign `max(existing ids)+1`, and `1`
when the store is empty.  The POST branch of `handle_posts` computes
`max(post['id'] for post in POSTS) + 1` inline instead of calling the
helper `generate_new_id`, so on an empty store the request crashes with an
uncaught `ValueError` (modelled as `none`) instead of assigning id `1` as
the helper (and the spec) prescribe. -/
theorem create_on_empty_store_crashes :
    handle_posts_post [] ⟨some "A", some "B", none⟩ = none ∧ generate_new_id [] = 1 :=
  ⟨rfl, rfl⟩

/-- C2 counterexample: from the seed store, creating a post yields id 3;
after deleting id 3, the very next create assigns id 3 again, so a deleted
id is reused. -/
theorem id_reuse_after_delete_cex :
    (execOp POSTS (Op.createOp payloadX)).map Post.id = [1, 2, 3] ∧
    (execOp (execOp POSTS (Op.createOp payloadX)) (Op.deleteOp 3)).map Post.id = [1, 2] ∧
    (execOp (execOp (execOp POSTS (Op.createOp payloadX)) (Op.deleteOp 3))
        (Op.createOp payloadZ)).map Post.id = [1, 2, 3] :=
  ⟨rfl, rfl, rfl⟩

/-- C2 amended: a create on a nonempty store assigns `max(existing ids)+1`,
which is strictly greater than every id currently in the store, but may
coincide with a previously deleted id (exactly when that id exceeds the
current maximum). -/
theorem create_assigns_fresh_max_id (posts : List Post) (payload : CreatePayload)
    (hne : posts ≠ []) (ht : payload.title.isSome = true)
    (hc : payload.content.isSome = true) :
    handle_posts_post posts payload =
      some ((201, Body.post { id := maxIds posts + 1, title := payload.title.getD "",
                              content := payload.content.getD "" }),
            posts ++ [{ id := maxIds posts + 1, title := payload.title.getD "",
                        content := payload.content.getD "" }]) ∧
    ∀ p ∈ posts, p.id < maxIds posts + 1 := by
  obtain ⟨tv, htv⟩ := Option.isSome_iff_exists.mp ht
  obtain ⟨cv, hcv⟩ := Option.isSome_iff_exists.mp hc
  have hempty : posts.isEmpty = false := by
    cases posts with
    | nil => exact absurd rfl hne
    | cons _ _ => rfl
  constructor
  · simp [handle_posts_post, htv, hcv, hempty]
  · exact fun p hp => id_lt_maxIds_succ hp

theorem create_assigns_fresh_max_id_witness :
    (POSTS ≠ [] ∧ payloadX.title.isSome = true ∧ payloadX.content.isSome = true) ∧
    (handle_posts_post POSTS payloadX =
      some ((201, Body.post { id := maxIds POSTS + 1, title := payloadX.title.getD "",
                              content := payloadX.content.getD "" }),
            POSTS ++ [{ id := maxIds POSTS + 1, title := payloadX.title.getD "",
                        content := payloadX.content.getD "" }]) ∧
     ∀ p ∈ POSTS, p.id < maxIds POSTS + 1) :=
  ⟨⟨by decide, rfl, rfl⟩, create_assigns_fresh_max_id POSTS payloadX (by decide) rfl rfl⟩

/-- C10: a client-supplied `id` in the create payload is ignored: the stored
and returned record carries the store-assigned id `max(existing ids)+1`,
and the outcome is identical to the same request without an `id` field. -/
theorem create_ignores_client_id (posts : List Post) (t c : String) (cid : Nat)
    (hne : posts ≠ []) :
    handle_posts_post posts ⟨some t, some c, some cid⟩ =
      some ((201, Body.post { id := maxIds posts + 1, title := t, content := c }),
            posts ++ [{ id := maxIds posts + 1, title := t, content := c }]) ∧
    handle_posts_post posts ⟨some t, some c, some cid⟩ =
      handle_posts_post posts ⟨some t, some c, none⟩ := by
  have hempty : posts.isEmpty = false := by
    cases posts with
    | nil => exact absurd rfl hne
    | cons _ _ => rfl
  exact ⟨by simp [handle_posts_post, hempty], rfl⟩

theorem create_ignores_client_id_witness :
    POSTS ≠ [] ∧
    (handle_posts_post POSTS ⟨some "T", some "C", some 999⟩ =
      some ((201, Body.post { id := maxIds POSTS + 1, title := "T", content := "C" }),
            POSTS ++ [{ id := maxIds POSTS + 1, title := "T", content := "C" }]) ∧
     handle_posts_post POSTS ⟨some "T", some "C", some 999⟩ =
      handle_posts_post POSTS ⟨some "T", some "C", none⟩) :=
  ⟨by decide, create_ignores_client_id POSTS "T" "C" 999 (by decide)⟩

/-- C9: the standalone GET handler and the GET branch of the combined
GET/POST handler are observationally equivalent on every store and every
pair of query parameters, and a GET request never changes the store. -/
theorem get_handlers_equivalent :
    (∀ (posts : List Post) (sortQ dirQ : Option String),
       get_posts posts sortQ dirQ = handle_posts_get posts sortQ dirQ) ∧
    ∀ (posts : List Post) (sortQ dirQ : Option String),
       execOp posts (Op.listOp sortQ dirQ) = posts :=
  ⟨fun _ _ _ => rfl, fun _ _ _ => rfl⟩

/-- C5: deleting an absent id yields 404 with an error naming that id and
leaves the store unchanged; deleting a present id (in a store with distinct
ids, which every reachable store has) yields 200 with the exact success
message and removes exactly that post, leaving all others in order. -/
theorem delete_spec (posts : List Post) (i : Nat) :
    ((∀ p ∈ posts, p.id ≠ i) →
       delete_post posts i =
         ((404, Body.err ("Post with id " ++ toString i ++ " not found.")), posts) ∧
       strContains ("Post with id " ++ toString i ++ " not found.") (toString i) = true) ∧
    ((posts.map Post.id).Nodup → i ∈ posts.map Post.id →
       delete_post posts i =
         ((200, Body.msg ("Post with id " ++ toString i ++ " has been deleted successfully.")),
          posts.filter (fun p => !(p.id == i)))) := by
  constructor
  · intro h
    have hf : posts.find? (fun p => p.id == i) = none := by
      rw [List.find?_eq_none]
      intro x hx
      simpa using h x hx
    exact ⟨by simp [delete_post, hf],
      strContains_middle "Post with id " (toString i) " not found."⟩
  · intro hnd hmem
    obtain ⟨p, hp, hpi⟩ := List.mem_map.mp hmem
    have hsome : (posts.find? (fun q => q.id == i)).isSome := by
      rw [List.find?_isSome]
      exact ⟨p, hp, by simp [hpi]⟩
    obtain ⟨q, hq⟩ := Option.isSome_iff_exists.mp hsome
    simp [delete_post, hq, eraseP_id_eq_filter hnd]

theorem delete_spec_witness :
    ((∀ p ∈ POSTS, p.id ≠ 9) ∧
     delete_post POSTS 9 =
       ((404, Body.err ("Post with id " ++ toString 9 ++ " not found.")), POSTS) ∧
     strContains ("Post with id " ++ toString 9 ++ " not found.") (toString 9) = true) ∧
    ((POSTS.map Post.id).Nodup ∧ 2 ∈ POSTS.map Post.id ∧
     delete_post POSTS 2 =
       ((200, Body.msg ("Post with id " ++ toString 2 ++ " has been deleted successfully.")),
        POSTS.filter (fun p => !(p.id == 2)))) :=
  ⟨⟨by decide, (delete_spec POSTS 9).1 (by decide)⟩,
   ⟨by decide, by decide, (delete_spec POSTS 2).2 (by decide) (by decide)⟩⟩

/-- C4: updating an absent id yields 404 with an error naming that id and
leaves the store unchanged; updating a present id replaces exactly the
supplied fields (an absent `title` or `content` keeps its prior value),
keeps the id, returns the updated record, and rewrites only the matched
post in place. -/
theorem update_spec (posts : List Post) (i : Nat) (t c : Option String) :
    (posts.find? (fun p => p.id == i) = none →
       update_post posts i t c =
         ((404, Body.err ("Post with id " ++ toString i ++ " not found.")), posts) ∧
       strContains ("Post with id " ++ toString i ++ " not found.") (toString i) = true) ∧
    (∀ p, posts.find? (fun p => p.id == i) = some p →
       update_post posts i t c =
         ((200, Body.post (applyUpdate t c p)), updateFirst i t c posts) ∧
       (applyUpdate t c p).id = p.id ∧
       (t = none → (applyUpdate t c p).title = p.title) ∧
       (c = none → (applyUpdate t c p).content = p.content) ∧
       (∀ s, t = some s → (applyUpdate t c p).title = s) ∧
       (∀ s, c = some s → (applyUpdate t c p).content = s) ∧
       ∃ l₁ l₂, posts = l₁ ++ p :: l₂ ∧
         updateFirst i t c posts = l₁ ++ applyUpdate t c p :: l₂) := by
  constructor
  · intro hf
    exact ⟨by simp [update_post, hf],
      strContains_middle "Post with id " (toString i) " not found."⟩
  · intro p hf
    refine ⟨by simp [update_post, hf], rfl, ?_, ?_, ?_, ?_, updateFirst_split t c hf⟩
    · rintro rfl; rfl
    · rintro rfl; rfl
    · rintro s rfl; rfl
    · rintro s rfl; rfl

/-- C6: with a valid sort field and direction, listing returns status 200
and the full store sorted by case-insensitive comparison of that field:
the result is a permutation of the store, ordered ascending (or descending
for `desc`), and stable (for every key value, posts with that key keep
their prior relative order); on pairwise-distinct keys the descending
order is exactly the reverse of the ascending one; without a sort
parameter the posts come back in insertion order; and a list request never
modifies the store. -/
theorem get_posts_sort_spec (posts : List Post) (f : String) (dirQ : Option String)
    (hf : f = "title" ∨ f = "content")
    (hd : strLower (dirQ.getD "asc") = "asc" ∨ strLower (dirQ.getD "asc") = "desc") :
    (get_posts posts none dirQ = (200, Body.posts posts)) ∧
    (strLower (dirQ.getD "asc") = "asc" →
       get_posts posts (some f) dirQ =
         (200, Body.posts (posts.mergeSort (postLe f false)))) ∧
    (strLower (dirQ.getD "asc") = "desc" →
       get_posts posts (some f) dirQ =
         (200, Body.posts (posts.mergeSort (postLe f true)))) ∧
    (List.Perm (posts.mergeSort (postLe f false)) posts) ∧
    ((posts.mergeSort (postLe f false)).Pairwise (fun p q => postKey f p ≤ postKey f q)) ∧
    (List.Perm (posts.mergeSort (postLe f true)) posts) ∧
    ((posts.mergeSort (postLe f true)).Pairwise (fun p q => postKey f q ≤ postKey f p)) ∧
    (∀ k, (posts.mergeSort (postLe f false)).filter (fun p => postKey f p == k) =
       posts.filter (fun p => postKey f p == k)) ∧
    (∀ k, (posts.mergeSort (postLe f true)).filter (fun p => postKey f p == k) =
       posts.filter (fun p => postKey f p == k)) ∧
    ((posts.map (postKey f)).Nodup →
       posts.mergeSort (postLe f true) = (posts.mergeSort (postLe f false)).reverse) ∧
    (∀ (s : List Post) (q d : Option String), execOp s (Op.listOp q d) = s) := by
  have htruthy : truthy (some f) = true := by
    rcases hf with rfl | rfl <;> decide
  have hvalid : (f == "title" || f == "content") = true := by
    rcases hf with rfl | rfl <;> decide
  have hdirok : (strLower (dirQ.getD "asc") == "asc" ||
      strLower (dirQ.getD "asc") == "desc") = true := by
    rcases hd with h | h <;> simp [h]
  refine ⟨?_, ?_, ?_, ?_, ?_, ?_, ?_, mergeSort_filter_key f false posts,
    mergeSort_filter_key f true posts, mergeSort_desc_eq_reverse f posts,
    fun _ _ _ => rfl⟩
  · simp [get_posts, truthy, hdirok]
  · intro h
    have hne : (("asc" : String) == "desc") = false := by decide
    simp [get_posts, htruthy, hvalid, h, hne]
  · intro h
    simp [get_posts, htruthy, hvalid, h]
  · exact List.mergeSort_perm posts (postLe f false)
  · exact (List.sorted_mergeSort (postLe_trans f false) (postLe_total f false) posts).imp
      (fun h => by simpa [postLe] using h)
  · exact List.mergeSort_perm posts (postLe f true)
  · exact (List.sorted_mergeSort (postLe_trans f true) (postLe_total f true) posts).imp
      (fun h => by simpa [postLe] using h)

theorem get_posts_sort_spec_witness :
    (("title" = "title" ∨ "title" = "content") ∧
     (strLower ((some "desc").getD "asc") = "asc" ∨
       strLower ((some "desc").getD "asc") = "desc")) ∧
    get_posts POSTS (some "title") (some "desc") =
      (200, Body.posts (POSTS.mergeSort (postLe "title" true))) :=
  ⟨⟨Or.inl rfl, Or.inr (by decide)⟩,
   (get_posts_sort_spec POSTS "title" (some "desc") (Or.inl rfl)
     (Or.inr (by decide))).2.2.1 (by decide)⟩

theorem update_spec_witness :
    (POSTS.find? (fun p => p.id == 9) = none ∧
     update_post POSTS 9 (some "New") none =
       ((404, Body.err ("Post with id " ++ toString 9 ++ " not found.")), POSTS)) ∧
    (POSTS.find? (fun p => p.id == 2) =
       some { id := 2, title := "Second post", content := "This is the second post." } ∧
     update_post POSTS 2 (some "New") none =
       ((200, Body.post (applyUpdate (some "New") none
          { id := 2, title := "Second post", content := "This is the second post." })),
        updateFirst 2 (some "New") none POSTS)) :=
  ⟨⟨by decide, ((update_spec POSTS 9 (some "New") none).1 (by decide)).1⟩,
   ⟨by decide, ((update_spec POSTS 2 (some "New") none).2
      { id := 2, title := "Second post", content := "This is the second post." }
      (by decide)).1⟩⟩

end Masterblog
